import Mathlib

/-!
Shallow embedding of the `miney.luanticlient` package (protocol framing,
SRP-6a authentication, connection/send logic, split-packet reassembly and
command dispatch), together with theorems settling the specification claims.

Bytes are modelled as `List ℕ` with values below 256.  Python exceptions are
modelled with the `PyErr` type: functions that can raise return `Except PyErr`
results (or record the raised error in a step-result field when the source
mutates state before raising).
-/

set_option autoImplicit false

namespace Miney

/-- Python exception kinds that the modelled code can raise. -/
inductive PyErr where
  | indexError
  | structError
  | typeError
  | valueError
  | luantiConnectionError
  deriving DecidableEq, Repr

/-! ## Byte-level helpers (struct.pack / struct.unpack / int conversions) -/

/-- `struct.pack(">H", n)` for `n < 65536`: two big-endian bytes. -/
def u16be (n : ℕ) : List ℕ := [n / 256 % 256, n % 256]

/-- `struct.pack(">I", n)` for `n < 2^32`: four big-endian bytes. -/
def u32be (n : ℕ) : List ℕ :=
  [n / 16777216 % 256, n / 65536 % 256, n / 256 % 256, n % 256]

/-- `int.from_bytes(bs, byteorder='big')`. -/
def fromBytesBE (bs : List ℕ) : ℕ := bs.foldl (fun a b => a * 256 + b) 0

/-- Big-endian bytes of `n`, fuelled so that the kernel can evaluate it. -/
def toBEBytesAux : ℕ → ℕ → List ℕ
  | 0, _ => []
  | fuel + 1, n => if n = 0 then [] else toBEBytesAux fuel (n / 256) ++ [n % 256]

/-- `n.to_bytes((n.bit_length() + 7) // 8, byteorder='big')`:
minimal-length big-endian encoding (empty for `n = 0`). -/
def toMinBytes (n : ℕ) : List ℕ := toBEBytesAux (n + 1) n

/-- `n.to_bytes(L, byteorder='big')` for `n` that fits in `L` bytes:
zero-padded big-endian encoding of fixed length `L`. -/
def toBytesPad (n L : ℕ) : List ℕ :=
  List.replicate (L - (toMinBytes n).length) 0 ++ toMinBytes n

/-- Fuelled modular exponentiation (the fuel bounds the number of halvings,
so the kernel can evaluate it; `e + 1` units always suffice). -/
def powModAux : ℕ → ℕ → ℕ → ℕ → ℕ
  | 0, _, _, m => 1 % m
  | fuel + 1, b, e, m =>
    if e = 0 then 1 % m
    else
      let r := powModAux fuel (b * b % m) (e / 2) m
      if e % 2 = 1 then r * b % m else r

/-- Python's three-argument `pow(b, e, m)` for `m > 0`. -/
def powMod (b e m : ℕ) : ℕ := powModAux (e + 1) b e m

/-! ## Protocol (`protocol.py`): packet builders and `parse` -/

/-- Payload carried by a reliable packet. -/
inductive RelPayload where
  | original (commandId : ℕ) (data : List ℕ)
  | split (splitSeqnum chunkCount chunkNum : ℕ) (chunkData : List ℕ)
  | control (ctrlType : ℕ) (payload : List ℕ)
  deriving DecidableEq, Repr

/-- Result of `Protocol.parse` (the `PacketData` named tuple). -/
inductive PacketData where
  | reliable (peerId channel seqnum : ℕ) (payload : RelPayload)
  | ack (peerId channel seqnum : ℕ)
  | control (peerId channel ctrlType : ℕ) (payload : List ℕ)
  | directCommand (commandId : ℕ) (data : List ℕ)
  deriving DecidableEq, Repr

/-- `protocol_id` used by `LuantiClient` when instantiating `Protocol`. -/
def PROTOCOL_ID : ℕ := 0x4f457403

/-- `Protocol.create_reliable_original_packet`. -/
def createReliableOriginalPacket (peerId seq : ℕ) (data : List ℕ) : List ℕ :=
  u32be PROTOCOL_ID ++ u16be peerId ++ [0] ++ [3] ++ u16be seq ++ [1] ++ data

/-- `Protocol.create_reliable_split_packet`. -/
def createReliableSplitPacket (peerId seq splitSeqnum totalChunks chunkNum : ℕ)
    (chunkData : List ℕ) : List ℕ :=
  u32be PROTOCOL_ID ++ u16be peerId ++ [0] ++ [3] ++ u16be seq ++
    [2] ++ u16be splitSeqnum ++ u16be totalChunks ++ u16be chunkNum ++ chunkData

/-- `Protocol.create_ack_packet`. -/
def createAckPacket (peerId channel seq : ℕ) : List ℕ :=
  u32be PROTOCOL_ID ++ u16be peerId ++ [channel % 256] ++ [0] ++ [0] ++ u16be seq

/-- `Protocol.create_disconnect_packet`. -/
def createDisconnectPacket (peerId : ℕ) : List ℕ :=
  u32be PROTOCOL_ID ++ u16be peerId ++ [0] ++ [0] ++ [3]

/-- `Protocol.create_keep_alive_packet`. -/
def createKeepAlivePacket (peerId : ℕ) : List ℕ :=
  u32be PROTOCOL_ID ++ u16be peerId ++ [0] ++ [0] ++ [2]

/-- `Protocol.parse`.  Faithful to the source, including its unguarded byte
reads: `data[7]` is read after only a `len(data) < 7` check and `data[10]`
after only a `len(data) < 10` check, so those reads can raise `IndexError`. -/
def parse (data : List ℕ) : Except PyErr (Option PacketData) :=
  if 4 ≤ data.length ∧ fromBytesBE (data.take 4) = PROTOCOL_ID then
    if data.length < 7 then .ok none
    else
      let peerId := fromBytesBE ((data.drop 4).take 2)
      let channel := data.getD 6 0
      match data.get? 7 with
      | none => .error .indexError
      | some packetTypeByte =>
        if packetTypeByte = 3 then
          if data.length < 10 then .ok none
          else
            let seqnum := fromBytesBE ((data.drop 8).take 2)
            match data.get? 10 with
            | none => .error .indexError
            | some payloadType =>
              if payloadType = 1 then
                if data.length < 13 then .ok none
                else
                  .ok (some (.reliable peerId channel seqnum
                    (.original (fromBytesBE ((data.drop 11).take 2)) (data.drop 13))))
              else if payloadType = 2 then
                if data.length < 17 then .ok none
                else
                  .ok (some (.reliable peerId channel seqnum
                    (.split (fromBytesBE ((data.drop 11).take 2))
                      (fromBytesBE ((data.drop 13).take 2))
                      (fromBytesBE ((data.drop 15).take 2)) (data.drop 17))))
              else if payloadType = 0 then
                if data.length < 12 then .ok none
                else
                  .ok (some (.reliable peerId channel seqnum
                    (.control (data.getD 11 0) (data.drop 12))))
              else .ok none
        else if packetTypeByte = 0 then
          if data.length < 9 then .ok none
          else
            let ctrlType := data.getD 8 0
            if ctrlType = 0 then
              if data.length < 11 then .ok none
              else .ok (some (.ack peerId channel (fromBytesBE ((data.drop 9).take 2))))
            else .ok (some (.control peerId channel ctrlType (data.drop 9)))
        else .ok none
  else if 2 ≤ data.length then
    .ok (some (.directCommand (fromBytesBE (data.take 2)) (data.drop 2)))
  else .ok none

/-! ## SRP-6a client (`srp.py`)

`SRPClient` takes its hash function as a constructor parameter (`hash_alg`,
defaulting to SHA-256), so the embedding is parameterised by an arbitrary
hash `H : List ℕ → List ℕ`.  `str.lower` is modelled byte-wise on the UTF-8
encoding (exact for the ASCII player names this client uses). -/

/-- The fixed 2048-bit SRP group modulus `N` from `srp.py`. -/
def srpN : ℕ :=
  0xAC6BDB41324A9A9BF166DE5E1389582FAF72B6651987EE07FC3192943DB56050A37329CBB4A099ED8193E0757767A13DD52312AB4B03310DCD7F48A9DA04FD50E8083969EDB767B0CF6095179A163AB3661A05FBD5FAAAE82918A9962F0B93B855F97993EC975EEAA80D740ADBF4FF747359D041D5C33EA71D281E446B14773BCA97B43A23FB801676BD207A436C6481F1D2B9078717461A5B9D32E688F87748544523B524B0D57D5EA77A2775D2ECFA032CFBDBF52FB3786160279004E57AE6AF874E7303CE53299CCC041C7BC308D82A5698F3A8D0C38271AE35F8E9DBFBB694B5C803D89F7AE435DE236D525F54759B65E372FCD68EF20FA7111F9E4AFF73

/-- The SRP generator `g = 2`. -/
def srpG : ℕ := 2

/-- `(N.bit_length() + 7) // 8` for the fixed group: 256 bytes. -/
def nBytesLen : ℕ := 256

/-- Byte-wise ASCII lower-casing (`str.lower` on ASCII text). -/
def asciiLower (b : ℕ) : ℕ := if 65 ≤ b ∧ b ≤ 90 then b + 32 else b

/-- `s.lower()` on the byte level. -/
def lowerBytes (s : List ℕ) : List ℕ := s.map asciiLower

/-- `SRPClient._calculate_x`: `x = H(salt ‖ H(username.lower() ‖ ":" ‖ password))`
read as a big-endian integer (58 is the byte of `":"`). -/
def calculateX (H : List ℕ → List ℕ) (salt username password : List ℕ) : ℕ :=
  fromBytesBE (H (salt ++ H (lowerBytes username ++ [58] ++ password)))

/-- `SRPClient._calculate_u`: `u = H(A ‖ B)` with minimal-length conversions. -/
def calculateU (H : List ℕ → List ℕ) (A B : ℕ) : ℕ :=
  fromBytesBE (H (toMinBytes A ++ toMinBytes B))

/-- `SRPClient._calculate_k`: `k = H(N ‖ g)` where **both** `N` and `g` are
converted with `to_bytes(n_bytes_len)`, i.e. `g` is zero-padded to the full
256-byte length of `N` (`g_full` in the source). -/
def calculateK (H : List ℕ → List ℕ) : ℕ :=
  fromBytesBE (H (toBytesPad srpN nBytesLen ++ toBytesPad srpG nBytesLen))

/-- `SRPClient._calculate_M`: the client proof.  Here `g` is converted
minimal-length (`g_min_bytes`), unlike in `_calculate_k`. -/
def calculateM (H : List ℕ → List ℕ) (username salt : List ℕ) (A B : ℕ)
    (K : List ℕ) : List ℕ :=
  let hN := H (toBytesPad srpN nBytesLen)
  let hg := H (toMinBytes srpG)
  let hxor := List.zipWith (fun a b => Nat.xor a b) hN hg
  let hI := H (lowerBytes username)
  H (hxor ++ hI ++ salt ++ toMinBytes A ++ toMinBytes B ++ K)

/-- `SRPClient._calculate_H_AMK`. -/
def calculateHAMK (H : List ℕ → List ℕ) (A : ℕ) (M K : List ℕ) : List ℕ :=
  H (toMinBytes A ++ M ++ K)

/-- The mutable fields of an `SRPClient` instance. -/
structure SRPState where
  username : List ℕ
  password : List ℕ
  a : ℕ
  A : ℕ
  bytesA : List ℕ
  salt : Option (List ℕ) := none
  B : Option ℕ := none
  u : Option ℕ := none
  S : Option ℕ := none
  K : Option (List ℕ) := none
  M : Option (List ℕ) := none
  hAMK : Option (List ℕ) := none
  srpAuthenticated : Bool := false

/-- `SRPClient.__init__` with the random private exponent `a` supplied by the
environment (`random.randint(2, N - 1)` in the source). -/
def mkSRPClient (username password : List ℕ) (a : ℕ) : SRPState :=
  let A := powMod srpG a srpN
  { username := username, password := password, a := a, A := A
    bytesA := toBytesPad A nBytesLen }

/-- `SRPClient.process_challenge`.  Returns the updated instance state along
with either the client proof `M` or the `ValueError` the source raises; the
fields assigned before a raise (`salt`, `B`, `u`) stay assigned. -/
def processChallenge (H : List ℕ → List ℕ) (st : SRPState) (salt bytesB : List ℕ) :
    SRPState × Except PyErr (List ℕ) :=
  let B := fromBytesBE bytesB
  let st1 := { st with salt := some salt, B := some B }
  if B % srpN = 0 then (st1, .error .valueError)
  else
    let u := calculateU H st.A B
    let st2 := { st1 with u := some u }
    if u = 0 then (st2, .error .valueError)
    else
      let x := calculateX H salt (lowerBytes st.username) st.password
      let v := powMod srpG x srpN
      let k := calculateK H
      let kv := k * v % srpN
      let base := (((B : ℤ) - (kv : ℤ)) % (srpN : ℤ)).toNat
      let S := powMod base (st.a + u * x) srpN
      let K := H (toMinBytes S)
      let M := calculateM H (lowerBytes st.username) salt st.A B K
      let hAMK := calculateHAMK H st.A M K
      ({ st2 with S := some S, K := some K, M := some M, hAMK := some hAMK },
       .ok M)

/-- `SRPClient.verify_session`. -/
def verifySession (st : SRPState) (hAMK : List ℕ) : SRPState × Bool :=
  if st.hAMK = some hAMK then ({ st with srpAuthenticated := true }, true)
  else (st, false)

/-- `SRPClient.generate_first_srp_data` with the 16 random salt bytes supplied
by the environment (`os.urandom(16)` in the source). -/
def generateFirstSrpData (H : List ℕ → List ℕ) (st : SRPState) (saltRand : List ℕ) :
    List ℕ × List ℕ × Bool :=
  let x := fromBytesBE (H (saltRand ++ H (lowerBytes st.username ++ [58] ++ st.password)))
  let v := powMod srpG x srpN
  (saltRand, toMinBytes v, st.password.isEmpty)

/-- The client proof exactly as claim C4 words it: every integer-to-bytes
conversion inside the hash inputs is big-endian and **minimal-length**, in
particular `k = H(N ‖ g)` with `g` encoded minimally (one byte). -/
def specClientProofM (H : List ℕ → List ℕ) (username password salt : List ℕ)
    (a B : ℕ) : List ℕ :=
  let A := powMod srpG a srpN
  let x := fromBytesBE (H (salt ++ H (lowerBytes username ++ [58] ++ password)))
  let v := powMod srpG x srpN
  let k := fromBytesBE (H (toMinBytes srpN ++ toMinBytes srpG))
  let u := fromBytesBE (H (toMinBytes A ++ toMinBytes B))
  let S := powMod (((B : ℤ) - (k : ℤ) * (v : ℤ)) % (srpN : ℤ)).toNat (a + u * x) srpN
  let K := H (toMinBytes S)
  let hxor := List.zipWith (fun p q => Nat.xor p q) (H (toMinBytes srpN)) (H (toMinBytes srpG))
  H (hxor ++ H username ++ salt ++ toMinBytes A ++ toMinBytes B ++ K)

/-! ## Client / connection state (`state.py`, `connection.py`, `client.py`)

One state record models the shared `ClientStateHolder` together with the
client-level configuration (`playername`, `password`, `register_mode`) and the
connection-level counters (`split_seqnum`).  External callbacks are modelled
as pure functions; random sources (`random.randint`, `os.urandom`) as streams
consumed from the state. -/

/-- Two's-complement reading of a 32-bit big-endian word (`struct.unpack(">i")`). -/
def toSigned32 (n : ℕ) : ℤ := if n < 2147483648 then (n : ℤ) else (n : ℤ) - 4294967296

/-- Two's-complement reading of a 16-bit big-endian word (`struct.unpack(">h")`). -/
def toSigned16 (n : ℕ) : ℤ := if n < 32768 then (n : ℤ) else (n : ℤ) - 65536

/-- `struct.pack(">h", x)` for `-32768 ≤ x ≤ 32767`. -/
def i16be (x : ℤ) : List ℕ := u16be (x % 65536).toNat

/-- What `_handle_access_denied` records: the stored reason text is kept
structurally (reason code, optional custom-reason bytes, register-mode
override flag) rather than as the rendered message string. -/
structure DeniedRecord where
  code : ℕ
  customBytes : Option (List ℕ)
  registerOverride : Bool
  deriving DecidableEq, Repr

/-- Association-list insert with Python-`dict` semantics: replace in place if
the key exists, append otherwise. -/
def dictInsert {α β : Type} [DecidableEq α] (m : List (α × β)) (k : α) (v : β) :
    List (α × β) :=
  match m with
  | [] => [(k, v)]
  | (k', v') :: rest =>
    if k' = k then (k, v) :: rest else (k', v') :: dictInsert rest k v

/-- Python-`dict` lookup on the association list. -/
def dictLookup {α β : Type} [DecidableEq α] (m : List (α × β)) (k : α) : Option β :=
  match m with
  | [] => none
  | (k', v') :: rest => if k' = k then some v' else dictLookup rest k

/-- The combined client/session/connection state.  `timeOfDayRaw` and
`timeSpeedBits` hold the undecoded wire words (the source stores
`u16 / 24000.0` and an IEEE-754 float; no claim depends on the float values),
and `playerPosition` holds the decoded 32-bit big-endian signed fixed-point
triple; the source divides each component by `100.0` into a float, which is
not modelled — the exact centimetre integers are stored instead. -/
structure CState where
  phase : ℕ
  connected : Bool
  authenticated : Bool
  peerId : Option ℕ
  accessDeniedReason : Option DeniedRecord
  accessDeniedCode : Option ℕ
  srpUser : Option SRPState
  sequenceNumber : ℕ
  packetsSent : ℕ
  packetsReceived : ℕ
  lastProcessedCommandId : Option ℕ
  autoRespawn : Bool
  playerPosition : ℤ × ℤ × ℤ
  timeOfDayRaw : ℕ
  timeSpeedBits : ℕ
  connectedPlayers : List (List ℕ)
  blocks : List ((ℤ × ℤ × ℤ) × List ℕ)
  nodeDefinitionsSize : Option ℕ
  hasNodeDefinitions : Bool
  nodeDefinitionsRaw : Option (List ℕ)
  playername : List ℕ
  password : List ℕ
  registerMode : Bool
  chatHandlers : List (List ℕ → Bool)
  formspecHandlerNames : List (List ℕ)
  randInts : List ℕ
  randBytes : List ℕ
  splitSeqnum : ℕ

/-- `Connection.send_split_packet`.  Returns the success flag, the updated
state and the datagrams passed to `sock.sendto` (socket errors are not
modelled; a `None` peer id is modelled as 0, a path `send_packet` never
takes). -/
def sendSplitPacketC (st : CState) (data : List ℕ) : Bool × CState × List (List ℕ) :=
  let maxChunk := 512 - 17
  let totalChunks := (data.length + maxChunk - 1) / maxChunk
  if totalChunks > 65535 then (false, st, [])
  else
    let splitSeq := st.splitSeqnum
    let st1 := { st with splitSeqnum := (st.splitSeqnum + 1) % 65536 }
    (List.range totalChunks).foldl
      (fun acc i =>
        let chunk := (data.drop (i * maxChunk)).take maxChunk
        let pkt := createReliableSplitPacket (acc.2.1.peerId.getD 0)
          acc.2.1.sequenceNumber splitSeq totalChunks i chunk
        (acc.1,
         { acc.2.1 with sequenceNumber := (acc.2.1.sequenceNumber + 1) % 65536,
                        packetsSent := acc.2.1.packetsSent + 1 },
         acc.2.2 ++ [pkt]))
      (true, st1, [])

/-- `Connection.send_packet`. -/
def sendPacketC (st : CState) (data : List ℕ) : Bool × CState × List (List ℕ) :=
  if ¬st.connected ∨ st.peerId = none then (false, st, [])
  else if data.length > 512 - 11 then sendSplitPacketC st data
  else
    let pkt := createReliableOriginalPacket (st.peerId.getD 0) st.sequenceNumber data
    (true,
     { st with sequenceNumber := (st.sequenceNumber + 1) % 65536,
               packetsSent := st.packetsSent + 1 },
     [pkt])

/-! ## Command builders used by the dispatch path (`protocol.py`) -/

/-- `Protocol.create_init2_command` (`INIT2 = 0x11`). -/
def createInit2Command : List ℕ := u16be 0x11

/-- `Protocol.create_gotblocks_command` (`GOTBLOCKS = 0x24`). -/
def createGotblocksCommand (x y z : ℤ) : List ℕ :=
  u16be 0x24 ++ i16be x ++ i16be y ++ i16be z

/-- `Protocol.create_srp_bytes_a_command` (`SRP_BYTES_A = 0x51`, `based_on = 1`). -/
def createSrpBytesACommand (bytesA : List ℕ) : List ℕ :=
  u16be 0x51 ++ u16be bytesA.length ++ bytesA ++ [1]

/-- `Protocol.create_srp_bytes_m_command` (`SRP_BYTES_M = 0x52`). -/
def createSrpBytesMCommand (bytesM : List ℕ) : List ℕ :=
  u16be 0x52 ++ u16be bytesM.length ++ bytesM

/-- `Protocol.create_first_srp_command` (`FIRST_SRP = 0x50`). -/
def createFirstSrpCommand (salt verifier : List ℕ) (isEmpty : Bool) : List ℕ :=
  u16be 0x50 ++ u16be salt.length ++ salt ++ u16be verifier.length ++ verifier ++
    [if isEmpty then 1 else 0]

/-- `Protocol.create_formspec_response_command` (`INVENTORY_FIELDS = 0x3c`);
field keys/values are carried as UTF-8 bytes. -/
def createFormspecResponseCommand (formname : List ℕ)
    (fields : List (List ℕ × List ℕ)) : List ℕ :=
  u16be 0x3c ++ u16be formname.length ++ formname ++ u16be fields.length ++
    (fields.map (fun kv => u16be kv.1.length ++ kv.1 ++ u32be kv.2.length ++ kv.2)).flatten

/-- UTF-8 bytes of `"__builtin:death"`. -/
def deathFormName : List ℕ :=
  [95, 95, 98, 117, 105, 108, 116, 105, 110, 58, 100, 101, 97, 116, 104]

/-- UTF-8 bytes of `"btn_respawn"`. -/
def btnRespawnBytes : List ℕ := [98, 116, 110, 95, 114, 101, 115, 112, 97, 119, 110]

/-- UTF-8 bytes of `"true"`. -/
def trueBytes : List ℕ := [116, 114, 117, 101]

/-! ## Command handlers (`command_handler.py`) and the helper sends of
`client.py`.  Each handler returns the updated state, the datagrams that went
out, and the exception (if any) propagating out of `process_command`; the
source mutates state before raising, and so do these models. -/

/-- Environment: the hash used by SRP and `zlib.decompress` (`none` models
`zlib.error`). -/
structure Env where
  H : List ℕ → List ℕ
  zlibDecompress : List ℕ → Option (List ℕ)

/-- Result of dispatching one command. -/
structure StepResult where
  st : CState
  sent : List (List ℕ)
  err : Option PyErr

/-- `LuantiClient.start_srp_auth`: creates a fresh `SRPClient` (consuming one
random integer for the private exponent `a`), stores it in the state and
sends `SRP_BYTES_A`. -/
def startSrpAuth (st : CState) : StepResult :=
  let a := st.randInts.headD 2
  let st1 := { st with randInts := st.randInts.tail }
  let srp := mkSRPClient (lowerBytes st1.playername) st1.password a
  let st2 := { st1 with srpUser := some srp }
  let r := sendPacketC st2 (createSrpBytesACommand srp.bytesA)
  ⟨r.2.1, r.2.2, none⟩

/-- `LuantiClient.send_first_srp`: creates a throwaway `SRPClient` (without
storing it), derives the registration material (consuming one random integer
and 16 random salt bytes) and sends `FIRST_SRP`. -/
def sendFirstSrp (env : Env) (st : CState) : StepResult :=
  let a := st.randInts.headD 2
  let salt := st.randBytes.take 16
  let st1 := { st with randInts := st.randInts.tail, randBytes := st.randBytes.drop 16 }
  let srp := mkSRPClient (lowerBytes st1.playername) st1.password a
  let m := generateFirstSrpData env.H srp salt
  let r := sendPacketC st1 (createFirstSrpCommand m.1 m.2.1 m.2.2)
  ⟨r.2.1, r.2.2, none⟩

/-- `CommandHandler._handle_hello`: the phase moves to Authenticating before
`data[4]` is read, so a short payload still changes phase (and raises). -/
def handleHello (env : Env) (st : CState) (data : List ℕ) : StepResult :=
  if st.authenticated then ⟨st, [], none⟩
  else
    let st1 := { st with phase := 2 }
    match data.get? 4 with
    | none => ⟨st1, [], some .indexError⟩
    | some authMethods =>
      if st1.registerMode then
        if authMethods &&& 4 ≠ 0 then sendFirstSrp env st1
        else startSrpAuth st1
      else startSrpAuth st1

/-- `LuantiClient.send_init2` followed by `send_client_ready`: if the INIT2
send succeeds the phase moves to Joining and `send_client_ready` is entered,
where `create_client_ready_command(self.lang_code, self.formspec_version)`
calls a method declared with no parameters — Python raises `TypeError`
before any CLIENT_READY bytes exist. -/
def sendInit2 (st : CState) : StepResult :=
  let r := sendPacketC st createInit2Command
  if r.1 then ⟨{ r.2.1 with phase := 4 }, r.2.2, some .typeError⟩
  else ⟨r.2.1, r.2.2, none⟩

/-- `CommandHandler._handle_auth_accept`. -/
def handleAuthAccept (st : CState) (data : List ℕ) : StepResult :=
  let st1 := { st with authenticated := true, phase := 3 }
  let st2 :=
    if 12 ≤ data.length then
      { st1 with playerPosition :=
          (toSigned32 (fromBytesBE (data.take 4)),
           toSigned32 (fromBytesBE ((data.drop 4).take 4)),
           toSigned32 (fromBytesBE ((data.drop 8).take 4))) }
    else st1
  sendInit2 st2

/-- `CommandHandler._handle_access_denied`: records the denial, resets the
phase to Disconnected and raises `LuantiConnectionError`. -/
def handleAccessDenied (st : CState) (data : List ℕ) : StepResult :=
  match data.get? 0 with
  | none => ⟨st, [], some .indexError⟩
  | some code =>
    let custom : Option (List ℕ) :=
      if code = 10 ∧ 3 ≤ data.length then
        some ((data.drop 3).take (fromBytesBE ((data.drop 1).take 2)))
      else none
    let record : DeniedRecord := ⟨code, custom, st.registerMode && (code == 0)⟩
    ⟨{ st with accessDeniedReason := some record, accessDeniedCode := some code,
               phase := 0 },
     [], some .luantiConnectionError⟩

/-- `CommandHandler._handle_srp_bytes_s_b`: the length-prefixed parsing runs
outside the `try`, so short input raises `struct.error`; everything from
`process_challenge` on is inside `except Exception`, which swallows both a
missing `srp_user` and a `ValueError` from the challenge. -/
def handleSrpBytesSB (env : Env) (st : CState) (data : List ℕ) : StepResult :=
  if data.length < 2 then ⟨st, [], some .structError⟩
  else
    let sLen := fromBytesBE (data.take 2)
    let salt := (data.drop 2).take sLen
    let pos := 2 + sLen
    if ((data.drop pos).take 2).length ≠ 2 then ⟨st, [], some .structError⟩
    else
      let bLen := fromBytesBE ((data.drop pos).take 2)
      let bytesB := (data.drop (pos + 2)).take bLen
      match st.srpUser with
      | none => ⟨st, [], none⟩
      | some srp =>
        let pc := processChallenge env.H srp salt bytesB
        let st1 := { st with srpUser := some pc.1 }
        match pc.2 with
        | .error _ => ⟨st1, [], none⟩
        | .ok M =>
          let r := sendPacketC st1 (createSrpBytesMCommand M)
          ⟨r.2.1, r.2.2, none⟩

/-- `CommandHandler._handle_nodedef`: the phase moves to Joined **before**
the payload is parsed or decompressed; GOTBLOCKS is attempted only on the
first successful decompression. -/
def handleNodedef (env : Env) (st : CState) (data : List ℕ) : StepResult :=
  let st1 := if st.phase < 5 then { st with phase := 5 } else st
  if data.length < 4 then ⟨st1, [], some .structError⟩
  else
    let dataLen := fromBytesBE (data.take 4)
    let compressed := (data.drop 4).take dataLen
    let st2 := { st1 with nodeDefinitionsRaw := some compressed }
    match env.zlibDecompress compressed with
    | none => ⟨st2, [], none⟩
    | some decompressed =>
      let st3 := { st2 with nodeDefinitionsSize := some decompressed.length }
      if st3.hasNodeDefinitions then ⟨st3, [], none⟩
      else
        let st4 := { st3 with hasNodeDefinitions := true }
        let r := sendPacketC st4 (createGotblocksCommand 0 0 0)
        ⟨r.2.1, r.2.2, none⟩

/-- `CommandHandler._handle_show_formspec` (registered handlers are invoked
for their external effects only, which are not modelled; the death-screen
response goes through `send_formspec_response`, which refuses when not
authenticated). -/
def handleShowFormspec (st : CState) (data : List ℕ) : StepResult :=
  if data.length < 4 then ⟨st, [], some .structError⟩
  else
    let fLen := fromBytesBE (data.take 4)
    let pos := 4 + fLen
    if ((data.drop pos).take 2).length ≠ 2 then ⟨st, [], some .structError⟩
    else
      let nLen := fromBytesBE ((data.drop pos).take 2)
      let formname := (data.drop (pos + 2)).take nLen
      if formname ∈ st.formspecHandlerNames then ⟨st, [], none⟩
      else if formname = deathFormName then
        if st.autoRespawn then
          if st.authenticated then
            let r := sendPacketC st
              (createFormspecResponseCommand deathFormName [(btnRespawnBytes, trueBytes)])
            ⟨r.2.1, r.2.2, none⟩
          else ⟨st, [], none⟩
        else ⟨st, [], none⟩
      else ⟨st, [], none⟩

/-- `CommandHandler._handle_chat_message` (sender and message are sliced as
in the source's `BytesIO` reads; registered handlers receive the decoded
message and have no modelled state effect). -/
def handleChatMessage (st : CState) (data : List ℕ) : StepResult :=
  if ((data.drop 2).take 2).length ≠ 2 then ⟨st, [], some .structError⟩
  else
    let senderLen := fromBytesBE ((data.drop 2).take 2)
    let senderBytes := (data.drop 4).take (senderLen * 2)
    let pos := 4 + senderBytes.length
    if ((data.drop pos).take 2).length ≠ 2 then ⟨st, [], some .structError⟩
    else ⟨st, [], none⟩

/-- `CommandHandler._handle_time_of_day` (raw wire words stored; the first
field is assigned before the second is parsed). -/
def handleTimeOfDay (st : CState) (data : List ℕ) : StepResult :=
  if data.length < 2 then ⟨st, [], some .structError⟩
  else
    let st1 := { st with timeOfDayRaw := fromBytesBE (data.take 2) }
    if ((data.drop 2).take 4).length ≠ 4 then ⟨st1, [], some .structError⟩
    else ⟨{ st1 with timeSpeedBits := fromBytesBE ((data.drop 2).take 4) }, [], none⟩

/-- The name-reading loop of `_handle_update_player_list`: each iteration
needs an exact 2-byte length but tolerates a short name slice. -/
def readPlayerNames (data : List ℕ) : ℕ → ℕ → Except PyErr (List (List ℕ))
  | 0, _ => .ok []
  | k + 1, pos =>
    if ((data.drop pos).take 2).length ≠ 2 then .error .structError
    else
      let nameLen := fromBytesBE ((data.drop pos).take 2)
      let name := (data.drop (pos + 2)).take nameLen
      match readPlayerNames data k (pos + 2 + nameLen) with
      | .error e => .error e
      | .ok rest => .ok (name :: rest)

/-- `CommandHandler._handle_update_player_list`.  Names are compared as raw
UTF-8 bytes (collisions introduced by replacement decoding are not
modelled).  The ADD branch mirrors `list.extend` over a generator that tests
membership against the growing list, so duplicates inside one batch are also
filtered. -/
def handleUpdatePlayerList (st : CState) (data : List ℕ) : StepResult :=
  match data.get? 0 with
  | none => ⟨st, [], some .indexError⟩
  | some listType =>
    if ((data.drop 1).take 2).length ≠ 2 then ⟨st, [], some .structError⟩
    else
      match readPlayerNames data (fromBytesBE ((data.drop 1).take 2)) 3 with
      | .error e => ⟨st, [], some e⟩
      | .ok players =>
        let newPlayers :=
          if listType = 0 then players
          else if listType = 1 then
            players.foldl (fun acc p => if p ∈ acc then acc else acc ++ [p])
              st.connectedPlayers
          else if listType = 2 then
            st.connectedPlayers.filter (fun p => p ∉ players)
          else st.connectedPlayers
        ⟨{ st with connectedPlayers := newPlayers }, [], none⟩

/-- `CommandHandler._handle_blockdata`. -/
def handleBlockdata (st : CState) (data : List ℕ) : StepResult :=
  if data.length < 6 then ⟨st, [], some .structError⟩
  else
    let key := (toSigned16 (fromBytesBE (data.take 2)),
                toSigned16 (fromBytesBE ((data.drop 2).take 2)),
                toSigned16 (fromBytesBE ((data.drop 4).take 2)))
    ⟨{ st with blocks := dictInsert st.blocks key (data.drop 6) }, [], none⟩

/-- `CommandHandler.process_command`: records the command id, then dispatches
through the handler table (unknown ids are logged and ignored). -/
def processCommand (env : Env) (st : CState) (cmdId : ℕ) (data : List ℕ) :
    StepResult :=
  let st0 := { st with lastProcessedCommandId := some cmdId }
  if cmdId = 0x02 then handleHello env st0 data
  else if cmdId = 0x03 then handleAuthAccept st0 data
  else if cmdId = 0x0A then handleAccessDenied st0 data
  else if cmdId = 0x60 then handleSrpBytesSB env st0 data
  else if cmdId = 0x3A then handleNodedef env st0 data
  else if cmdId = 0x44 then handleShowFormspec st0 data
  else if cmdId = 0x2F then handleChatMessage st0 data
  else if cmdId = 0x29 then handleTimeOfDay st0 data
  else if cmdId = 0x56 then handleUpdatePlayerList st0 data
  else if cmdId = 0x20 then handleBlockdata st0 data
  else if cmdId = 0xFF then ⟨st0, [], none⟩
  else ⟨st0, [], none⟩

/-- Dispatching a whole inbound command sequence: the receive loop catches
every exception a handler raises and keeps processing (`connection.py`'s
`except Exception` around the loop body), so the state threads through. -/
def processCommands (env : Env) (st : CState) (cmds : List (ℕ × List ℕ)) : CState :=
  cmds.foldl (fun s c => (processCommand env s c.1 c.2).st) st

/-! ## Inbound split-packet reassembly (`connection.py`) -/

/-- One entry of `Connection.split_packets` (the `received_time` field, used
only by the 30-second purge, is wall-clock state outside these claims and is
omitted). -/
structure SplitBuffer where
  chunks : List (ℕ × List ℕ)
  totalChunks : ℕ
  deriving DecidableEq, Repr

/-- Python-`dict` key removal (`del`). -/
def dictRemove {α β : Type} [DecidableEq α] (m : List (α × β)) (k : α) :
    List (α × β) :=
  match m with
  | [] => []
  | (k', v') :: rest => if k' = k then rest else (k', v') :: dictRemove rest k

/-- `b''.join(chunks[i] for i in range(count))` key accesses: `none` models
the `KeyError` raised when an index is missing. -/
def collectChunks (chunks : List (ℕ × List ℕ)) : List ℕ → Option (List (List ℕ))
  | [] => some []
  | i :: rest =>
    match dictLookup chunks i, collectChunks chunks rest with
    | some c, some cs => some (c :: cs)
    | _, _ => none

/-- `KeyError` for `collectChunks`. -/
inductive ReasmErr where
  | keyError
  deriving DecidableEq, Repr

/-- `Connection._handle_split_packet`: inserts the chunk, and if the chunk
map now has `chunk_count` entries, joins the chunks in index order, removes
the buffer and (when at least 2 bytes result) delivers one
`(command_id, payload)` to the command processor. -/
def handleSplitPacket (sp : List (ℕ × SplitBuffer))
    (splitSeqnum chunkCount chunkNum : ℕ) (chunkData : List ℕ) :
    Except ReasmErr (List (ℕ × SplitBuffer) × List (ℕ × List ℕ)) :=
  let sp1 :=
    if dictLookup sp splitSeqnum = none then
      dictInsert sp splitSeqnum ⟨[], chunkCount⟩
    else sp
  let buf := (dictLookup sp1 splitSeqnum).getD ⟨[], chunkCount⟩
  let buf1 : SplitBuffer := ⟨dictInsert buf.chunks chunkNum chunkData, buf.totalChunks⟩
  let sp2 := dictInsert sp1 splitSeqnum buf1
  if buf1.chunks.length = chunkCount then
    match collectChunks buf1.chunks (List.range chunkCount) with
    | none => .error .keyError
    | some datas =>
      let joined := datas.flatten
      let sp3 := dictRemove sp2 splitSeqnum
      if 2 ≤ joined.length then
        .ok (sp3, [(fromBytesBE (joined.take 2), joined.drop 2)])
      else .ok (sp3, [])
  else .ok (sp2, [])

/-- Feeding a sequence of split-chunk payloads `(split_seq, count, index,
bytes)` through `_handle_split_packet`, accumulating the delivered commands. -/
def runSplit (sp : List (ℕ × SplitBuffer)) :
    List (ℕ × ℕ × ℕ × List ℕ) →
    Except ReasmErr (List (ℕ × SplitBuffer) × List (ℕ × List ℕ))
  | [] => .ok (sp, [])
  | p :: rest =>
    match handleSplitPacket sp p.1 p.2.1 p.2.2.1 p.2.2.2 with
    | .error e => .error e
    | .ok (sp', ds) =>
      match runSplit sp' rest with
      | .error e => .error e
      | .ok (sp'', ds') => .ok (sp'', ds ++ ds')

/-- The `i`-th outbound chunk of a payload (`send_split_packet`'s slice with
the 495-byte cap). -/
def chunkOf (data : List ℕ) (i : ℕ) : List ℕ := (data.drop (i * 495)).take 495

/-- `total_chunks = ceil(len / 495)` as computed by `send_split_packet`. -/
def numChunks (data : List ℕ) : ℕ := (data.length + 494) / 495

/-- A concrete connected session state used by witnesses and
counterexamples: peer id 1 assigned, sequence counter at its initial 65500. -/
def baseState : CState where
  phase := 0
  connected := true
  authenticated := false
  peerId := some 1
  accessDeniedReason := none
  accessDeniedCode := none
  srpUser := none
  sequenceNumber := 65500
  packetsSent := 0
  packetsReceived := 0
  lastProcessedCommandId := none
  autoRespawn := true
  playerPosition := (0, 0, 0)
  timeOfDayRaw := 0
  timeSpeedBits := 0
  connectedPlayers := []
  blocks := []
  nodeDefinitionsSize := none
  hasNodeDefinitions := false
  nodeDefinitionsRaw := none
  playername := [97]
  password := [98]
  registerMode := false
  chatHandlers := []
  formspecHandlerNames := []
  randInts := [5]
  randBytes := []
  splitSeqnum := 0

/-- The reassembly buffer state after a set `done` of distinct chunk indices
of the split message `(s, n)` has arrived. -/
def bufState (data : List ℕ) (s n : ℕ) (done : List ℕ) :
    List (ℕ × SplitBuffer) :=
  if done = [] then []
  else [(s, ⟨done.map fun i => (i, chunkOf data i), n⟩)]

/-- The fields of the state that the dispatch-phase claims read. -/
def dispatchProj (st : CState) :
    ℕ × Bool × Option DeniedRecord × Option ℕ × Bool × Bool × Option ℕ ×
      Option (List ℕ) :=
  (st.phase, st.authenticated, st.accessDeniedReason, st.accessDeniedCode,
   st.hasNodeDefinitions, st.connected, st.peerId, st.nodeDefinitionsRaw)

/-- Environment whose hash returns `[]` and whose decompression always
fails (`zlib.error`). -/
def envNull : Env := ⟨fun _ => [], fun _ => none⟩

/-- Environment whose hash returns `[]` and whose decompression succeeds,
returning its input unchanged. -/
def envId : Env := ⟨fun _ => [], fun bs => some bs⟩

/-- A concrete nonzero-output hash used to instantiate `hash_alg` (the
source's `SRPClient` takes the hash function as a constructor parameter). -/
def testHash (bs : List ℕ) : List ℕ :=
  [bs.foldl (fun a b => (a * 31 + b) % 251) 7 + 1]

/-- The client proof as C4 words it, amended in exactly one place: inside
`k = H(N ‖ g)` the generator is zero-padded to the 256-byte length of `N`
(`g_full` in `_calculate_k`); every other integer-to-bytes conversion stays
minimal-length big-endian. -/
def specClientProofMPadded (H : List ℕ → List ℕ) (username password salt : List ℕ)
    (a B : ℕ) : List ℕ :=
  let A := powMod srpG a srpN
  let x := fromBytesBE (H (salt ++ H (lowerBytes username ++ [58] ++ password)))
  let v := powMod srpG x srpN
  let k := fromBytesBE (H (toMinBytes srpN ++ toBytesPad srpG nBytesLen))
  let u := fromBytesBE (H (toMinBytes A ++ toMinBytes B))
  let S := powMod (((B : ℤ) - (k : ℤ) * (v : ℤ)) % (srpN : ℤ)).toNat (a + u * x) srpN
  let K := H (toMinBytes S)
  let hxor := List.zipWith (fun p q => Nat.xor p q) (H (toMinBytes srpN))
    (H (toMinBytes srpG))
  H (hxor ++ H username ++ salt ++ toMinBytes A ++ toMinBytes B ++ K)

theorem powModAux_correct (fuel : ℕ) : ∀ b e m : ℕ, 0 < m → e ≤ fuel →
    powModAux fuel b e m = b ^ e % m := by
  induction fuel with
  | zero =>
    intro b e m hm he
    interval_cases e
    simp [powModAux]
  | succ fuel ih =>
    intro b e m hm he
    by_cases he0 : e = 0
    · simp [powModAux, he0]
    · have hdiv : e / 2 ≤ fuel := by omega
      have hr : powModAux fuel (b * b % m) (e / 2) m = (b * b) ^ (e / 2) % m :=
        (ih (b * b % m) (e / 2) m hm hdiv).trans (by rw [Nat.pow_mod, Nat.mod_mod_of_dvd _ (dvd_refl m), ← Nat.pow_mod])
      have hbb : (b * b) ^ (e / 2) = b ^ (2 * (e / 2)) := by
        rw [two_mul, pow_add, ← mul_pow]
      by_cases hodd : e % 2 = 1
      · have hsplit : e = 2 * (e / 2) + 1 := by omega
        simp only [powModAux, he0, if_false, hodd, if_true]
        rw [hr, hbb, Nat.mul_mod, Nat.mod_mod_of_dvd _ (dvd_refl m) , ← Nat.mul_mod]
        conv_rhs => rw [hsplit]
        rw [pow_succ]
      · have hsplit : e = 2 * (e / 2) := by omega
        simp only [powModAux, he0, if_false, hodd, if_false]
        rw [hr, hbb, ← hsplit]

theorem powMod_correct (b e m : ℕ) (hm : 0 < m) : powMod b e m = b ^ e % m :=
  powModAux_correct (e + 1) b e m hm (by omega)

theorem fromBytesBE_u16be (n : ℕ) (h : n < 65536) : fromBytesBE (u16be n) = n := by
  simp only [u16be, fromBytesBE, List.foldl]
  omega

theorem fromBytesBE_u32be (n : ℕ) (h : n < 4294967296) : fromBytesBE (u32be n) = n := by
  simp only [u32be, fromBytesBE, List.foldl]
  omega

/-- The chunk-sending loop of `send_split_packet`: starting from sequence
counter `st.sequenceNumber < 65536`, sending `n` chunks advances the counter
to `(st.sequenceNumber + n) % 65536`, bumps `packets_sent` by `n`, and emits
chunk `i` framed with sequence number `(st.sequenceNumber + i) % 65536`. -/
theorem splitLoop_spec (data : List ℕ) (sseq tc : ℕ) (n : ℕ) :
    ∀ (ok : Bool) (st : CState) (pkts : List (List ℕ)),
    st.sequenceNumber < 65536 →
    (List.range n).foldl
      (fun acc i =>
        (acc.1,
         { acc.2.1 with sequenceNumber := (acc.2.1.sequenceNumber + 1) % 65536,
                        packetsSent := acc.2.1.packetsSent + 1 },
         acc.2.2 ++ [createReliableSplitPacket (acc.2.1.peerId.getD 0)
           acc.2.1.sequenceNumber sseq tc i ((data.drop (i * 495)).take 495)]))
      (ok, st, pkts) =
    (ok,
     { st with sequenceNumber := (st.sequenceNumber + n) % 65536,
               packetsSent := st.packetsSent + n },
     pkts ++ (List.range n).map (fun i =>
       createReliableSplitPacket (st.peerId.getD 0)
         ((st.sequenceNumber + i) % 65536) sseq tc i
         ((data.drop (i * 495)).take 495))) := by
  induction n with
  | zero =>
    intro ok st pkts hseq
    simp [Nat.mod_eq_of_lt hseq]
  | succ n ih =>
    intro ok st pkts hseq
    rw [List.range_succ, List.foldl_append, ih ok st pkts hseq]
    simp only [List.foldl_cons, List.foldl_nil, List.map_append, List.map_cons,
      List.map_nil, List.range_succ]
    refine congrArg (Prod.mk ok) (congrArg₂ Prod.mk ?_ ?_)
    · simp [Nat.mod_add_mod, Nat.add_assoc]
    · simp [List.append_assoc]

/-! ## Claim theorems -/

/-- C1: the claim says `Protocol.parse` never raises and returns `None` for
magic-matching truncated input.  The code reads `data[7]` after checking only
`len(data) < 7` and `data[10]` after checking only `len(data) < 10`, so a
7-byte datagram that starts with the protocol magic, and a reliable packet
truncated to exactly 10 bytes, both raise `IndexError` instead of returning
`None`. -/
theorem C1_parse_raises_on_truncated_magic_input :
    parse [79, 69, 116, 3, 0, 0, 0] = .error .indexError ∧
    parse [79, 69, 116, 3, 0, 1, 0, 3, 0, 5] = .error .indexError := by
  exact ⟨rfl, rfl⟩

/-- C2: round-trip of every packet builder paired with `parse`: a reliable
original packet (split into its command id and data), a reliable split chunk
and an ack packet are all parsed back to exactly the logical fields passed
to the builder, for all field values in their valid ranges. -/
theorem C2_roundtrip_builders_parse :
    (∀ (peer seq cmd : ℕ) (rest : List ℕ), peer < 65536 → seq < 65536 →
      cmd < 65536 →
      parse (createReliableOriginalPacket peer seq (u16be cmd ++ rest)) =
        .ok (some (.reliable peer 0 seq (.original cmd rest)))) ∧
    (∀ (peer seq ss tc cn : ℕ) (chunk : List ℕ), peer < 65536 → seq < 65536 →
      ss < 65536 → tc < 65536 → cn < 65536 →
      parse (createReliableSplitPacket peer seq ss tc cn chunk) =
        .ok (some (.reliable peer 0 seq (.split ss tc cn chunk)))) ∧
    (∀ peer channel seq : ℕ, peer < 65536 → channel < 256 → seq < 65536 →
      parse (createAckPacket peer channel seq) =
        .ok (some (.ack peer channel seq))) := by
  refine ⟨?_, ?_, ?_⟩
  · intro peer seq cmd rest hp hs hc
    simp only [createReliableOriginalPacket, u32be, u16be, PROTOCOL_ID,
      List.cons_append, List.nil_append]
    norm_num [parse, fromBytesBE, PROTOCOL_ID, List.getD]
    rw [if_neg (by omega), if_neg (by omega), if_neg (by omega)]
    simp only [Except.ok.injEq, Option.some.injEq, PacketData.reliable.injEq,
      RelPayload.original.injEq, and_true, true_and]
    omega
  · intro peer seq ss tc cn chunk hp hs hss htc hcn
    simp only [createReliableSplitPacket, u32be, u16be, PROTOCOL_ID,
      List.cons_append, List.nil_append]
    norm_num [parse, fromBytesBE, PROTOCOL_ID, List.getD]
    rw [if_neg (by omega), if_neg (by omega), if_neg (by omega)]
    simp only [Except.ok.injEq, Option.some.injEq, PacketData.reliable.injEq,
      RelPayload.split.injEq, and_true, true_and]
    omega
  · intro peer channel seq hp hch hs
    simp only [createAckPacket, u32be, u16be, PROTOCOL_ID,
      List.cons_append, List.nil_append]
    norm_num [parse, fromBytesBE, PROTOCOL_ID, List.getD]
    omega

/-- Witness for C2 at boundary values (peer id 0xFFFF, sequence 65535,
channel 0). -/
theorem C2_roundtrip_builders_parse_witness :
    parse (createReliableOriginalPacket 65535 65535 (u16be 50 ++ [1, 2])) =
      .ok (some (.reliable 65535 0 65535 (.original 50 [1, 2]))) ∧
    parse (createReliableSplitPacket 0 0 65535 2 1 [7]) =
      .ok (some (.reliable 0 0 0 (.split 65535 2 1 [7]))) ∧
    parse (createAckPacket 65535 0 65535) = .ok (some (.ack 65535 0 65535)) :=
  ⟨C2_roundtrip_builders_parse.1 65535 65535 50 [1, 2] (by decide) (by decide)
      (by decide),
   C2_roundtrip_builders_parse.2.1 0 0 65535 2 1 [7] (by decide) (by decide)
      (by decide) (by decide) (by decide),
   C2_roundtrip_builders_parse.2.2 65535 0 65535 (by decide) (by decide)
      (by decide)⟩

/-- `send_split_packet` on a splittable payload with a peer id assigned:
consumes one split sequence number, sends exactly `numChunks data` chunk
packets and advances the counters accordingly. -/
theorem sendSplitPacketC_spec (st : CState) (data : List ℕ) (pid : ℕ)
    (hpid : st.peerId = some pid) (hseq : st.sequenceNumber < 65536)
    (hcap : numChunks data ≤ 65535) :
    sendSplitPacketC st data =
      (true,
       { st with sequenceNumber := (st.sequenceNumber + numChunks data) % 65536,
                 packetsSent := st.packetsSent + numChunks data,
                 splitSeqnum := (st.splitSeqnum + 1) % 65536 },
       (List.range (numChunks data)).map (fun i =>
         createReliableSplitPacket pid ((st.sequenceNumber + i) % 65536)
           st.splitSeqnum (numChunks data) i (chunkOf data i))) := by
  have hn : (data.length + (512 - 17) - 1) / (512 - 17) = numChunks data := by
    simp only [numChunks]
    omega
  simp only [sendSplitPacketC, hn]
  rw [if_neg (by omega)]
  rw [splitLoop_spec data st.splitSeqnum (numChunks data) (numChunks data) true
    { st with splitSeqnum := (st.splitSeqnum + 1) % 65536 } [] hseq]
  simp [hpid, chunkOf]

/-- Helper: `send_split_packet` bails out before touching any state when the
chunk count would exceed 65535. -/
theorem sendSplitPacketC_oversize (st : CState) (data : List ℕ)
    (h : 65535 * 495 < data.length) :
    sendSplitPacketC st data = (false, st, []) := by
  simp only [sendSplitPacketC]
  rw [if_pos (by omega)]

/-- C10: `send_split_packet` on a payload needing more than 65535 chunks
returns `False` without sending anything and without touching any counter. -/
theorem C10_oversize_split_rejected (st : CState) (data : List ℕ)
    (h : 65535 * 495 < data.length) :
    sendSplitPacketC st data = (false, st, []) :=
  sendSplitPacketC_oversize st data h

/-- Witness for C10 at a concrete oversize payload. -/
theorem C10_oversize_split_rejected_witness :
    sendSplitPacketC baseState (List.replicate (65535 * 495 + 1) 0) =
      (false, baseState, []) :=
  C10_oversize_split_rejected baseState (List.replicate (65535 * 495 + 1) 0)
    (by rw [List.length_replicate]; omega)

/-- C6 counterexample: a payload longer than `65535 * 495` bytes is *not*
split into `ceil(len/495)` chunks as the claim states for every payload —
`send_packet` hands it to `send_split_packet`, which refuses and sends
nothing. -/
theorem C6_send_framing_counterexample :
    sendPacketC baseState (List.replicate (65535 * 495 + 1) 0) =
      (false, baseState, []) := by
  simp only [sendPacketC]
  rw [if_neg (by simp [baseState]), if_pos (by rw [List.length_replicate]; omega)]
  exact sendSplitPacketC_oversize _ _ (by rw [List.length_replicate]; omega)

/-- C6 amended: for payloads of at most `65535 * 495` bytes, `send_packet`
frames a single reliable original packet iff the length is at most 501
bytes, and otherwise splits into `ceil(len/495)` chunks of at most 495 bytes
each, advancing the sequence counter once per packet (wrapping mod 65536)
and the split-sequence counter once per split message. -/
theorem C6_amended_send_framing (st : CState) (data : List ℕ) (pid : ℕ)
    (hconn : st.connected = true) (hpid : st.peerId = some pid)
    (hseq : st.sequenceNumber < 65536) (hcap : data.length ≤ 65535 * 495) :
    (data.length ≤ 501 →
      sendPacketC st data =
        (true,
         { st with sequenceNumber := (st.sequenceNumber + 1) % 65536,
                   packetsSent := st.packetsSent + 1 },
         [createReliableOriginalPacket pid st.sequenceNumber data])) ∧
    (501 < data.length →
      (sendPacketC st data =
        (true,
         { st with sequenceNumber := (st.sequenceNumber + numChunks data) % 65536,
                   packetsSent := st.packetsSent + numChunks data,
                   splitSeqnum := (st.splitSeqnum + 1) % 65536 },
         (List.range (numChunks data)).map fun i =>
           createReliableSplitPacket pid ((st.sequenceNumber + i) % 65536)
             st.splitSeqnum (numChunks data) i (chunkOf data i))) ∧
      2 ≤ numChunks data ∧ ∀ i, (chunkOf data i).length ≤ 495) := by
  constructor
  · intro hle
    simp only [sendPacketC]
    rw [if_neg (by simp [hconn, hpid]), if_neg (by omega)]
    simp [hpid]
  · intro hgt
    refine ⟨?_, by simp only [numChunks]; omega,
      fun i => by simp [chunkOf, List.length_take]⟩
    simp only [sendPacketC]
    rw [if_neg (by simp [hconn, hpid]), if_pos (by omega)]
    exact sendSplitPacketC_spec st data pid hpid hseq
      (by simp only [numChunks]; omega)

/-- Witness for the amended C6 at concrete payloads of 13 and 600 bytes. -/
theorem C6_amended_send_framing_witness :
    sendPacketC baseState (List.replicate 13 7) =
      (true,
       { baseState with
           sequenceNumber := (baseState.sequenceNumber + 1) % 65536,
           packetsSent := baseState.packetsSent + 1 },
       [createReliableOriginalPacket 1 baseState.sequenceNumber
          (List.replicate 13 7)]) ∧
    sendPacketC baseState (List.replicate 600 7) =
      (true,
       { baseState with
           sequenceNumber :=
             (baseState.sequenceNumber + numChunks (List.replicate 600 7)) % 65536,
           packetsSent := baseState.packetsSent + numChunks (List.replicate 600 7),
           splitSeqnum := (baseState.splitSeqnum + 1) % 65536 },
       (List.range (numChunks (List.replicate 600 7))).map fun i =>
         createReliableSplitPacket 1
           ((baseState.sequenceNumber + i) % 65536) baseState.splitSeqnum
           (numChunks (List.replicate 600 7)) i
           (chunkOf (List.replicate 600 7) i)) :=
  ⟨(C6_amended_send_framing baseState (List.replicate 13 7) 1 rfl rfl
      (by decide) (by rw [List.length_replicate]; omega)).1
        (by rw [List.length_replicate]; omega),
   ((C6_amended_send_framing baseState (List.replicate 600 7) 1 rfl rfl
      (by decide) (by rw [List.length_replicate]; omega)).2
        (by rw [List.length_replicate]; omega)).1⟩

/-! ### Reassembly lemmas for C7 -/

theorem dictLookup_nil {α β : Type} [DecidableEq α] (k : α) :
    dictLookup ([] : List (α × β)) k = none := rfl

theorem dictLookup_cons {α β : Type} [DecidableEq α] (k' : α) (v' : β)
    (rest : List (α × β)) (k : α) :
    dictLookup ((k', v') :: rest) k =
      if k' = k then some v' else dictLookup rest k := rfl

theorem dictInsert_nil {α β : Type} [DecidableEq α] (k : α) (v : β) :
    dictInsert ([] : List (α × β)) k v = [(k, v)] := rfl

theorem dictInsert_cons {α β : Type} [DecidableEq α] (k' : α) (v' : β)
    (rest : List (α × β)) (k : α) (v : β) :
    dictInsert ((k', v') :: rest) k v =
      if k' = k then (k, v) :: rest else (k', v') :: dictInsert rest k v := rfl

/-- Lookup in a map whose entries are `(i, f i)` for `i` in `l`. -/
theorem dictLookup_map (f : ℕ → List ℕ) :
    ∀ (l : List ℕ) (j : ℕ),
      dictLookup (l.map fun i => (i, f i)) j = if j ∈ l then some (f j) else none := by
  intro l
  induction l with
  | nil => intro j; simp [dictLookup_nil]
  | cons a l ih =>
    intro j
    by_cases ha : a = j
    · subst ha
      simp [dictLookup_cons]
    · simp [dictLookup_cons, ha, ih j, Ne.symm ha]

/-- Inserting a fresh key appends the entry (Python dict insertion order). -/
theorem dictInsert_map_fresh (f : ℕ → List ℕ) :
    ∀ (l : List ℕ) (i : ℕ), i ∉ l →
      dictInsert (l.map fun j => (j, f j)) i (f i) =
        (l ++ [i]).map fun j => (j, f j) := by
  intro l
  induction l with
  | nil => intro i _; rfl
  | cons a l ih =>
    intro i hi
    have ha : a ≠ i := fun h => hi (h ▸ List.mem_cons_self a l)
    have hl : i ∉ l := fun h => hi (List.mem_cons_of_mem a h)
    simp [dictInsert_cons, ha, ih i hl]

/-- If every index of `idxs` is mapped by the chunk dict, the join accesses
succeed and return the chunks in index order. -/
theorem collectChunks_covers (chunks : List (ℕ × List ℕ)) (g : ℕ → List ℕ) :
    ∀ idxs : List ℕ, (∀ j ∈ idxs, dictLookup chunks j = some (g j)) →
      collectChunks chunks idxs = some (idxs.map g) := by
  intro idxs
  induction idxs with
  | nil => intro _; rfl
  | cons a l ih =>
    intro h
    have ha := h a (List.mem_cons_self a l)
    have hl := ih fun j hj => h j (List.mem_cons_of_mem a hj)
    simp [collectChunks, ha, hl]

/-- Concatenating the outbound chunks in index order recovers the payload. -/
theorem flatten_chunksOf (n : ℕ) : ∀ data : List ℕ, numChunks data = n →
    ((List.range n).map (chunkOf data)).flatten = data := by
  induction n with
  | zero =>
    intro data h
    have hlen : data.length = 0 := by
      simp only [numChunks] at h
      omega
    rw [List.length_eq_zero] at hlen
    subst hlen
    rfl
  | succ n ih =>
    intro data h
    rw [List.range_succ_eq_map]
    simp only [List.map_cons, List.map_map, List.flatten_cons]
    have hcomp : ((List.range n).map (chunkOf data ∘ Nat.succ)) =
        (List.range n).map (chunkOf (data.drop 495)) := by
      refine List.map_congr_left fun i _ => ?_
      simp only [Function.comp_apply, chunkOf, List.drop_drop]
      congr 2
      omega
    rw [hcomp, ih (data.drop 495) ?_]
    · simpa [chunkOf] using List.take_append_drop 495 data
    · simp only [numChunks, List.length_drop] at h ⊢
      omega

/-- One `_handle_split_packet` step on a fresh chunk index, written against
the buffer abstraction. -/
theorem handleSplit_step (data : List ℕ) (s n : ℕ) (done : List ℕ) (i : ℕ)
    (hi : i ∉ done) :
    handleSplitPacket (bufState data s n done) s n i (chunkOf data i) =
      if done.length + 1 = n then
        match collectChunks ((done ++ [i]).map fun j => (j, chunkOf data j))
            (List.range n) with
        | none => .error .keyError
        | some datas =>
          if 2 ≤ datas.flatten.length then
            .ok ([], [(fromBytesBE (datas.flatten.take 2), datas.flatten.drop 2)])
          else .ok ([], [])
      else .ok (bufState data s n (done ++ [i]), []) := by
  cases done with
  | nil =>
    simp [bufState, handleSplitPacket, dictLookup_nil, dictInsert_nil,
      dictLookup_cons, dictInsert_cons, dictRemove]
  | cons d ds =>
    have hne : (d :: ds) ≠ ([] : List ℕ) := List.cons_ne_nil d ds
    have hne2 : ((d :: ds) ++ [i]) ≠ ([] : List ℕ) := by simp
    have hins := dictInsert_map_fresh (chunkOf data) (d :: ds) i hi
    simp only [bufState, if_neg hne, if_neg hne2, handleSplitPacket,
      dictLookup_cons, eq_self_iff_true, if_true, Option.some_ne_none,
      if_false, Option.getD_some, dictInsert_cons, hins, dictRemove,
      List.length_map, List.length_append, List.length_cons, List.length_nil]

/-- Invariant of the reassembly loop: processing fresh chunk indices either
leaves the buffer partially filled with no delivery, or — exactly when the
final distinct chunk arrives — delivers the joined payload once and removes
the buffer. -/
theorem runSplit_go (data : List ℕ) (s n : ℕ) (hn : numChunks data = n)
    (h2 : 2 ≤ data.length) :
    ∀ (todo done : List ℕ), (done ++ todo).Nodup →
      (∀ j ∈ done ++ todo, j < n) →
      done.length + todo.length ≤ n →
      (done.length + todo.length < n →
        runSplit (bufState data s n done)
            (todo.map fun i => (s, n, i, chunkOf data i)) =
          .ok (bufState data s n (done ++ todo), [])) ∧
      (done.length + todo.length = n → todo ≠ [] →
        runSplit (bufState data s n done)
            (todo.map fun i => (s, n, i, chunkOf data i)) =
          .ok ([], [(fromBytesBE (data.take 2), data.drop 2)])) := by
  intro todo
  induction todo with
  | nil =>
    intro done hnd hlt hle
    refine ⟨fun _ => by simp [runSplit], fun _ hcontra => absurd rfl hcontra⟩
  | cons i rest ih =>
    intro done hnd hlt hle
    have hnd' : ((done ++ [i]) ++ rest).Nodup := by
      rwa [List.append_cons] at hnd
    have hlt' : ∀ j ∈ (done ++ [i]) ++ rest, j < n := by
      intro j hj
      exact hlt j (by rwa [List.append_cons])
    have hi : i ∉ done := by
      intro hmem
      rw [List.nodup_append] at hnd
      exact hnd.2.2 hmem (List.mem_cons_self i rest)
    have hstep := handleSplit_step data s n done i hi
    constructor
    · intro hltn
      have hguard : done.length + 1 ≠ n := by
        simp only [List.length_cons] at hltn
        omega
      simp only [List.map_cons, runSplit]
      rw [hstep, if_neg hguard]
      dsimp only
      have := (ih (done ++ [i]) hnd' hlt'
        (by simp only [List.length_append, List.length_cons, List.length_nil]
            simp only [List.length_cons] at hle
            omega)).1
        (by simp only [List.length_append, List.length_cons, List.length_nil]
            simp only [List.length_cons] at hltn
            omega)
      rw [this]
      dsimp only
      rw [← List.append_cons]
      rfl
    · intro heq hne
      cases rest with
      | nil =>
        have hguard : done.length + 1 = n := by
          simpa using heq
        have hperm : (done ++ [i]).Perm (List.range n) := by
          have hnodup : (done ++ [i]).Nodup := by simpa using hnd'
          have hsub : (done ++ [i]) ⊆ List.range n := by
            intro j hj
            exact List.mem_range.mpr (hlt' j (by simpa using hj))
          refine (List.subperm_of_subset hnodup hsub).perm_of_length_le ?_
          simp only [List.length_range, List.length_append, List.length_cons,
            List.length_nil]
          omega
        have hcover : ∀ j ∈ List.range n,
            dictLookup ((done ++ [i]).map fun k => (k, chunkOf data k)) j =
              some (chunkOf data j) := by
          intro j hj
          rw [dictLookup_map, if_pos (hperm.mem_iff.mpr hj)]
        simp only [List.map_cons, List.map_nil, runSplit]
        rw [hstep, if_pos hguard,
          collectChunks_covers _ (chunkOf data) (List.range n) hcover]
        dsimp only
        rw [flatten_chunksOf n data hn, if_pos h2]
        simp [runSplit]
      | cons j rest' =>
        have hguard : done.length + 1 ≠ n := by
          simp only [List.length_cons] at heq
          omega
        simp only [List.map_cons, runSplit]
        rw [hstep, if_neg hguard]
        dsimp only
        have := (ih (done ++ [i]) hnd' hlt'
          (by simp only [List.length_append, List.length_cons, List.length_nil]
              simp only [List.length_cons] at hle
              omega)).2
          (by simp only [List.length_append, List.length_cons, List.length_nil]
              simp only [List.length_cons] at heq
              omega)
          (List.cons_ne_nil j rest')
        simp only [List.map_cons, runSplit] at this
        rw [this]
        dsimp only [List.nil_append]

/-- C7: feeding the outbound chunks of a payload longer than 501 bytes to the
reassembler in any arrival order delivers exactly one reconstructed command
equal to the original payload at the moment the last distinct chunk arrives
(removing the buffer), while any proper subset of distinct chunks delivers
nothing and leaves the buffer pending. -/
theorem C7_split_reassembly_roundtrip (data : List ℕ) (s : ℕ)
    (hlen : 501 < data.length) :
    (∀ order : List ℕ, order.Perm (List.range (numChunks data)) →
      runSplit [] (order.map fun i => (s, numChunks data, i, chunkOf data i)) =
        .ok ([], [(fromBytesBE (data.take 2), data.drop 2)])) ∧
    (∀ sub : List ℕ, sub.Nodup → (∀ j ∈ sub, j < numChunks data) →
      sub.length < numChunks data →
      runSplit [] (sub.map fun i => (s, numChunks data, i, chunkOf data i)) =
        .ok (bufState data s (numChunks data) sub, []) ∧
      (sub ≠ [] →
        dictLookup (bufState data s (numChunks data) sub) s ≠ none)) := by
  have h2 : 2 ≤ data.length := by omega
  constructor
  · intro order hperm
    have hnil : order ≠ [] := by
      intro hcontra
      have := hperm.length_eq
      simp only [hcontra, List.length_nil, List.length_range] at this
      simp only [numChunks] at this
      omega
    have h0 := runSplit_go data s (numChunks data) rfl h2 order []
      (by simpa using hperm.nodup_iff.mpr (List.nodup_range _))
      (by intro j hj
          simp only [List.nil_append] at hj
          exact List.mem_range.mp (hperm.mem_iff.mp hj))
      (by simpa using hperm.length_eq.le.trans (by simp))
    have := h0.2 (by simpa using hperm.length_eq) hnil
    simpa [bufState] using this
  · intro sub hnodup hbound hlen'
    have h0 := runSplit_go data s (numChunks data) rfl h2 sub []
      (by simpa using hnodup)
      (by simpa using hbound)
      (by simpa using hlen'.le)
    refine ⟨by simpa [bufState] using h0.1 (by simpa using hlen'), ?_⟩
    intro hne
    cases sub with
    | nil => exact absurd rfl hne
    | cons a l =>
      simp [bufState, dictLookup_cons]

/-- Witness for C7: a 502-byte payload split into 2 chunks, fed in reverse
order, is reassembled, and feeding only chunk 1 delivers nothing. -/
theorem C7_split_reassembly_roundtrip_witness :
    runSplit [] ([1, 0].map fun i =>
        (9, numChunks (List.replicate 502 3), i, chunkOf (List.replicate 502 3) i)) =
      .ok ([], [(fromBytesBE ((List.replicate 502 3).take 2),
                 (List.replicate 502 3).drop 2)]) ∧
    runSplit [] ([1].map fun i =>
        (9, numChunks (List.replicate 502 3), i, chunkOf (List.replicate 502 3) i)) =
      .ok (bufState (List.replicate 502 3) 9 (numChunks (List.replicate 502 3)) [1],
           []) :=
  have hn : numChunks (List.replicate 502 3) = 2 := by
    simp only [numChunks, List.length_replicate]
  ⟨(C7_split_reassembly_roundtrip (List.replicate 502 3) 9
      (by rw [List.length_replicate]; omega)).1 [1, 0] (by rw [hn]; decide),
   ((C7_split_reassembly_roundtrip (List.replicate 502 3) 9
      (by rw [List.length_replicate]; omega)).2 [1] (by decide)
      (by rw [hn]; decide) (by rw [hn]; decide)).1⟩

/-! ### Dispatch-level lemmas -/

/-- The chunk-sending loop touches only the sequence and packets-sent
counters of the state. -/
theorem splitFold_proj (data : List ℕ) (sseq tc : ℕ) :
    ∀ (l : List ℕ) (acc : Bool × CState × List (List ℕ)),
      dispatchProj ((l.foldl
        (fun acc i =>
          (acc.1,
           { acc.2.1 with sequenceNumber := (acc.2.1.sequenceNumber + 1) % 65536,
                          packetsSent := acc.2.1.packetsSent + 1 },
           acc.2.2 ++ [createReliableSplitPacket (acc.2.1.peerId.getD 0)
             acc.2.1.sequenceNumber sseq tc i ((data.drop (i * 495)).take 495)]))
        acc).2.1) = dispatchProj acc.2.1 := by
  intro l
  induction l with
  | nil => intro acc; rfl
  | cons a l ih =>
    intro acc
    simpa [dispatchProj] using ih _

/-- `send_packet` never changes phase, authentication, denial or
node-definition state. -/
theorem sendPacketC_proj (st : CState) (data : List ℕ) :
    dispatchProj ((sendPacketC st data).2.1) = dispatchProj st := by
  simp only [sendPacketC]
  split
  · rfl
  split
  · simp only [sendSplitPacketC]
    split
    · rfl
    · exact (splitFold_proj data st.splitSeqnum _ _ _)
  · rfl

/-- `start_srp_auth` can change phase only through `send_packet`, which
never does. -/
theorem startSrpAuth_phase (st : CState) : (startSrpAuth st).st.phase = st.phase :=
  congrArg Prod.fst (sendPacketC_proj _ _)

/-- `send_first_srp` likewise never changes phase. -/
theorem sendFirstSrp_phase (env : Env) (st : CState) :
    (sendFirstSrp env st).st.phase = st.phase :=
  congrArg Prod.fst (sendPacketC_proj _ _)

/-- C3 counterexample: after ACCESS_DENIED is processed (phase reset to
Disconnected, denial recorded), a subsequently dispatched HELLO advances the
phase to Authenticating again — the denied state is not terminal for the
dispatcher. -/
theorem C3_access_denied_not_terminal_counterexample :
    (processCommand envNull { baseState with phase := 2 } 0x0A [1]).st.phase = 0 ∧
    (processCommand envNull { baseState with phase := 2 } 0x0A [1]).st.accessDeniedCode
      = some 1 ∧
    (processCommand envNull
        (processCommand envNull { baseState with phase := 2 } 0x0A [1]).st
        0x02 [0, 0, 0, 0, 4]).st.phase = 2 := by
  set_option maxRecDepth 16000 in decide

/-- C3 amended: ACCESS_DENIED records the denial (code and reason,
overwriting any previous record) and resets the phase to Disconnected, and
the denied state is not terminal: a subsequently dispatched HELLO while
unauthenticated moves the phase to Authenticating again. -/
theorem C3_amended_denied_records_and_hello_reenters (env : Env) (st : CState)
    (d1 d2 : List ℕ) (code : ℕ) (hc : d1.get? 0 = some code)
    (hna : st.authenticated = false) (hlen : 5 ≤ d2.length) :
    (processCommand env st 0x0A d1).st.phase = 0 ∧
    (processCommand env st 0x0A d1).st.accessDeniedCode = some code ∧
    (processCommand env st 0x0A d1).st.accessDeniedReason ≠ none ∧
    (processCommand env (processCommand env st 0x0A d1).st 0x02 d2).st.phase = 2 := by
  have hstep : processCommand env st 0x0A d1 = handleAccessDenied
      { st with lastProcessedCommandId := some 0x0A } d1 := by
    simp only [processCommand]
    norm_num
  rw [hstep]
  simp only [handleAccessDenied, hc]
  refine ⟨trivial, trivial, by simp, ?_⟩
  have hget : ∃ a, d2.get? 4 = some a := by
    cases h : d2.get? 4 with
    | none =>
      rw [List.get?_eq_none] at h
      omega
    | some a => exact ⟨a, rfl⟩
  obtain ⟨a, ha⟩ := hget
  have hstep2 : ∀ st' : CState, processCommand env st' 0x02 d2 =
      handleHello env { st' with lastProcessedCommandId := some 0x02 } d2 := by
    intro st'
    simp only [processCommand]
    norm_num
  rw [hstep2]
  simp only [handleHello, hna, Bool.false_eq_true, if_false, ha]
  split
  · split
    · exact sendFirstSrp_phase env _
    · exact startSrpAuth_phase _
  · exact startSrpAuth_phase _

/-- Witness for the amended C3 at a concrete denial and HELLO. -/
theorem C3_amended_denied_records_and_hello_reenters_witness :
    (processCommand envNull { baseState with phase := 3 } 0x0A [6]).st.phase = 0 ∧
    (processCommand envNull { baseState with phase := 3 } 0x0A [6]).st.accessDeniedCode
      = some 6 ∧
    (processCommand envNull { baseState with phase := 3 } 0x0A [6]).st.accessDeniedReason
      ≠ none ∧
    (processCommand envNull
        (processCommand envNull { baseState with phase := 3 } 0x0A [6]).st
        0x02 [28, 0, 0, 0, 2]).st.phase = 2 :=
  C3_amended_denied_records_and_hello_reenters envNull
    { baseState with phase := 3 } [6] [28, 0, 0, 0, 2] 6
    (by decide) (by decide) (by decide)

/-- C8: processing AUTH_ACCEPT marks authenticated, moves the phase to
Authenticated and then (via `send_init2`) to Joining, decodes the initial
position when 12 bytes are present, and sends INIT2 — but CLIENT_READY is
never sent: `send_client_ready` calls
`create_client_ready_command(self.lang_code, self.formspec_version)` against
a method declared with no parameters, so Python raises `TypeError` right
after INIT2 goes out. -/
theorem C8_auth_accept_sends_init2_but_client_ready_raises :
    (processCommand envNull baseState 0x03 []).err = some .typeError ∧
    (processCommand envNull baseState 0x03 []).st.phase = 4 ∧
    (processCommand envNull baseState 0x03 []).st.authenticated = true ∧
    (processCommand envNull baseState 0x03 []).sent =
      [createReliableOriginalPacket 1 65500 createInit2Command] ∧
    (processCommand envNull baseState 0x03
        (u32be 100 ++ u32be 200 ++ u32be 4294967096)).st.playerPosition =
      (100, 200, -200) := by
  set_option maxRecDepth 16000 in decide

/-- C9 counterexample: a first NODEDEF whose blob fails to decompress still
moves the phase to Joined, with no GOTBLOCKS sent and the
node-definitions flag still unset — the transition is not tied to a
*successful* receipt as the claim states. -/
theorem C9_nodedef_joins_without_success_counterexample :
    (processCommand envNull { baseState with phase := 4, authenticated := true }
        0x3A (u32be 2 ++ [9, 9])).st.phase = 5 ∧
    (processCommand envNull { baseState with phase := 4, authenticated := true }
        0x3A (u32be 2 ++ [9, 9])).sent = [] ∧
    (processCommand envNull { baseState with phase := 4, authenticated := true }
        0x3A (u32be 2 ++ [9, 9])).st.hasNodeDefinitions = false := by
  set_option maxRecDepth 16000 in decide

/-- C9 amended: NODEDEF decodes the 4-byte length-prefixed blob and moves
the phase to Joined on the first receipt regardless of decompression
success; the GOTBLOCKS acknowledgment is attempted only on the first
successful decompression and is never re-triggered afterwards. -/
theorem C9_amended_nodedef_first_receipt (env : Env) (st : CState)
    (data : List ℕ) (pid : ℕ) (h4 : 4 ≤ data.length)
    (hconn : st.connected = true) (hpid : st.peerId = some pid) :
    (st.phase < 5 → (processCommand env st 0x3A data).st.phase = 5) ∧
    (5 ≤ st.phase → (processCommand env st 0x3A data).st.phase = st.phase) ∧
    (processCommand env st 0x3A data).st.nodeDefinitionsRaw =
      some ((data.drop 4).take (fromBytesBE (data.take 4))) ∧
    (env.zlibDecompress ((data.drop 4).take (fromBytesBE (data.take 4))) = none →
      (processCommand env st 0x3A data).sent = [] ∧
      (processCommand env st 0x3A data).st.hasNodeDefinitions =
        st.hasNodeDefinitions) ∧
    (∀ d, env.zlibDecompress ((data.drop 4).take (fromBytesBE (data.take 4))) =
        some d → st.hasNodeDefinitions = true →
      (processCommand env st 0x3A data).sent = [] ∧
      (processCommand env st 0x3A data).st.hasNodeDefinitions = true) ∧
    (∀ d, env.zlibDecompress ((data.drop 4).take (fromBytesBE (data.take 4))) =
        some d → st.hasNodeDefinitions = false →
      (processCommand env st 0x3A data).st.hasNodeDefinitions = true ∧
      (processCommand env st 0x3A data).sent =
        [createReliableOriginalPacket pid st.sequenceNumber
          (createGotblocksCommand 0 0 0)]) := by
  have hstep : processCommand env st 0x3A data = handleNodedef env
      { st with lastProcessedCommandId := some 0x3A } data := by
    simp only [processCommand]
    norm_num
  rw [hstep]
  simp only [handleNodedef]
  rw [if_neg (show ¬data.length < 4 by omega)]
  have hND : ∀ (s : CState) (d : List ℕ),
      (sendPacketC s d).2.1.hasNodeDefinitions = s.hasNodeDefinitions :=
    fun s d => congrArg (fun p => p.2.2.2.2.1) (sendPacketC_proj s d)
  have hNR : ∀ (s : CState) (d : List ℕ),
      (sendPacketC s d).2.1.nodeDefinitionsRaw = s.nodeDefinitionsRaw :=
    fun s d => congrArg (fun p => p.2.2.2.2.2.2.2) (sendPacketC_proj s d)
  have hPH : ∀ (s : CState) (d : List ℕ),
      (sendPacketC s d).2.1.phase = s.phase :=
    fun s d => congrArg Prod.fst (sendPacketC_proj s d)
  cases henv : env.zlibDecompress ((data.drop 4).take (fromBytesBE (data.take 4))) with
  | none =>
    refine ⟨fun hph => ?_, fun hph => ?_, rfl, fun _ => ⟨rfl, ?_⟩,
      fun d hd => absurd hd (by simp), fun d hd => absurd hd (by simp)⟩
    · simp [apply_ite CState.phase, hph]
    · simp [apply_ite CState.phase, Nat.not_lt.mpr hph]
    · simp [apply_ite CState.hasNodeDefinitions]
  | some d0 =>
    cases hB : st.hasNodeDefinitions with
    | true =>
      refine ⟨fun hph => ?_, fun hph => ?_, ?_,
        fun hcontra => absurd hcontra (by simp),
        fun d hd _ => ⟨?_, ?_⟩,
        fun d hd hcontra => absurd hcontra (by simp)⟩
      · simp [apply_ite CState.phase, apply_ite CState.hasNodeDefinitions, hB, hph]
      · simp [apply_ite CState.phase, apply_ite CState.hasNodeDefinitions, hB,
          Nat.not_lt.mpr hph]
      · simp [apply_ite CState.hasNodeDefinitions, hB]
      · simp [apply_ite CState.hasNodeDefinitions, hB]
      · simp [apply_ite CState.hasNodeDefinitions, hB]
    | false =>
      refine ⟨fun hph => ?_, fun hph => ?_, ?_,
        fun hcontra => absurd hcontra (by simp),
        fun d hd hcontra => absurd hcontra (by simp),
        fun d hd _ => ⟨?_, ?_⟩⟩
      · simp [apply_ite CState.phase, apply_ite CState.hasNodeDefinitions, hB,
          hph, hPH]
      · simp [apply_ite CState.phase, apply_ite CState.hasNodeDefinitions, hB,
          Nat.not_lt.mpr hph, hPH]
      · simp [apply_ite CState.hasNodeDefinitions, hB, hNR]
      · simp [apply_ite CState.hasNodeDefinitions, hB, hND]
      · simp only [apply_ite CState.hasNodeDefinitions, ite_self, hB, if_false]
        simp [sendPacketC, hconn, hpid, apply_ite CState.connected,
          apply_ite CState.peerId, apply_ite CState.sequenceNumber,
          createGotblocksCommand, createReliableOriginalPacket, i16be, u16be,
          u32be, PROTOCOL_ID]

/-- Witness for the amended C9: a first NODEDEF whose 1-byte blob
decompresses successfully moves phase 4 to Joined, sets the flag and sends
GOTBLOCKS. -/
theorem C9_amended_nodedef_first_receipt_witness :
    (processCommand envId { baseState with phase := 4 } 0x3A
        (u32be 1 ++ [9])).st.phase = 5 ∧
    (processCommand envId { baseState with phase := 4 } 0x3A
        (u32be 1 ++ [9])).st.hasNodeDefinitions = true ∧
    (processCommand envId { baseState with phase := 4 } 0x3A
        (u32be 1 ++ [9])).sent =
      [createReliableOriginalPacket 1 65500 (createGotblocksCommand 0 0 0)] :=
  have h := C9_amended_nodedef_first_receipt envId { baseState with phase := 4 }
    (u32be 1 ++ [9]) 1 (by decide) rfl rfl
  ⟨h.1 (by decide), (h.2.2.2.2.2 [9] rfl rfl).1, (h.2.2.2.2.2 [9] rfl rfl).2⟩

/-- C5: `process_challenge` raises exactly when `B mod N = 0` or the
scrambling parameter `u = H(A‖B)` is zero, and on such a rejection the
SRP_BYTES_S_B handler sends no proof, propagates no exception (the failure is
logged and the attempt left to time out as a failed authentication), keeps
the phase unchanged and never re-runs the exchange: the stored client keeps
the same private exponent `a` and public value `A`. -/
theorem C5_srp_reject_exactly_and_abort (env : Env) (st : CState)
    (srp : SRPState) (salt bytesB : List ℕ) (hsrp : st.srpUser = some srp)
    (hs : salt.length < 65536) (hb : bytesB.length < 65536) :
    ((∃ e, (processChallenge env.H srp salt bytesB).2 = .error e) ↔
      (fromBytesBE bytesB % srpN = 0 ∨
       calculateU env.H srp.A (fromBytesBE bytesB) = 0)) ∧
    ((fromBytesBE bytesB % srpN = 0 ∨
      calculateU env.H srp.A (fromBytesBE bytesB) = 0) →
      (processCommand env st 0x60
          (u16be salt.length ++ salt ++ u16be bytesB.length ++ bytesB)).sent = [] ∧
      (processCommand env st 0x60
          (u16be salt.length ++ salt ++ u16be bytesB.length ++ bytesB)).err = none ∧
      (processCommand env st 0x60
          (u16be salt.length ++ salt ++ u16be bytesB.length ++ bytesB)).st.phase =
        st.phase ∧
      ∃ srp2, (processCommand env st 0x60
          (u16be salt.length ++ salt ++ u16be bytesB.length ++ bytesB)).st.srpUser =
            some srp2 ∧ srp2.a = srp.a ∧ srp2.A = srp.A) := by
  have hreject : ∀ hrej : fromBytesBE bytesB % srpN = 0 ∨
      calculateU env.H srp.A (fromBytesBE bytesB) = 0,
      ∃ srp2, processChallenge env.H srp salt bytesB = (srp2, .error .valueError) ∧
        srp2.a = srp.a ∧ srp2.A = srp.A := by
    intro hrej
    by_cases hB0 : fromBytesBE bytesB % srpN = 0
    · refine
        ⟨{ srp with
            salt := some salt
            B := some (fromBytesBE bytesB) }, ?_, rfl, rfl⟩
      simp only [processChallenge]
      rw [if_pos hB0]
    · have hu0 : calculateU env.H srp.A (fromBytesBE bytesB) = 0 :=
        hrej.resolve_left hB0
      refine
        ⟨{ srp with
            salt := some salt
            B := some (fromBytesBE bytesB)
            u := some (calculateU env.H srp.A (fromBytesBE bytesB)) },
          ?_, rfl, rfl⟩
      simp only [processChallenge]
      rw [if_neg hB0, if_pos hu0]
  constructor
  · constructor
    · intro ⟨e, he⟩
      by_contra hno
      push_neg at hno
      simp only [processChallenge] at he
      rw [if_neg hno.1, if_neg hno.2] at he
      cases he
    · intro hrej
      obtain ⟨srp2, hpc, -, -⟩ := hreject hrej
      exact ⟨.valueError, by rw [hpc]⟩
  · intro hrej
    obtain ⟨srp2, hpc, ha2, hA2⟩ := hreject hrej
    have hstep : processCommand env st 0x60
        (u16be salt.length ++ salt ++ u16be bytesB.length ++ bytesB) =
        handleSrpBytesSB env { st with lastProcessedCommandId := some 0x60 }
          (u16be salt.length ++ salt ++ u16be bytesB.length ++ bytesB) := by
      simp only [processCommand]
      norm_num
    have hparse1 : (u16be salt.length ++ salt ++ u16be bytesB.length ++ bytesB).take 2 =
        u16be salt.length := by
      simp [u16be]
    have hlen1 : ¬(u16be salt.length ++ salt ++ u16be bytesB.length ++ bytesB).length < 2 := by
      simp [u16be]
    have hdrop2 : (u16be salt.length ++ salt ++ u16be bytesB.length ++ bytesB).drop 2 =
        salt ++ u16be bytesB.length ++ bytesB := by
      simp [u16be, List.append_assoc]
    have hsalt : ((u16be salt.length ++ salt ++ u16be bytesB.length ++ bytesB).drop 2).take
        salt.length = salt := by
      rw [hdrop2, List.append_assoc, List.take_left]
    have hdropPos : (u16be salt.length ++ salt ++ u16be bytesB.length ++ bytesB).drop
        (2 + salt.length) = u16be bytesB.length ++ bytesB := by
      rw [show u16be salt.length ++ salt ++ u16be bytesB.length ++ bytesB =
        (u16be salt.length ++ salt) ++ (u16be bytesB.length ++ bytesB) by
          simp [List.append_assoc]]
      rw [List.drop_left' (by simp [u16be]; omega)]
    have htake2 : ((u16be salt.length ++ salt ++ u16be bytesB.length ++ bytesB).drop
        (2 + salt.length)).take 2 = u16be bytesB.length := by
      rw [hdropPos, List.take_left' (by simp [u16be])]
    have hdropPos2 : (u16be salt.length ++ salt ++ u16be bytesB.length ++ bytesB).drop
        (2 + salt.length + 2) = bytesB := by
      rw [show u16be salt.length ++ salt ++ u16be bytesB.length ++ bytesB =
        ((u16be salt.length ++ salt) ++ u16be bytesB.length) ++ bytesB by
          simp [List.append_assoc]]
      rw [List.drop_left' (by simp [u16be]; omega)]
    rw [hstep]
    simp only [handleSrpBytesSB]
    rw [if_neg hlen1, hparse1, fromBytesBE_u16be salt.length hs, hsalt, htake2,
      if_neg (by simp [u16be]), fromBytesBE_u16be bytesB.length hb, hdropPos2,
      List.take_length]
    simp only [hsrp]
    rw [hpc]
    exact ⟨rfl, rfl, rfl, srp2, rfl, ha2, hA2⟩

set_option maxRecDepth 100000 in
/-- Witness for C5 at `B = 0` (empty `B` bytes): the challenge is rejected
and the handler sends nothing and stays silent. -/
theorem C5_srp_reject_exactly_and_abort_witness :
    (∃ e, (processChallenge envNull.H (mkSRPClient [97] [98] 3) [1] []).2 =
      .error e) ∧
    (processCommand envNull
        { baseState with srpUser := some (mkSRPClient [97] [98] 3) } 0x60
        (u16be 1 ++ [1] ++ u16be 0 ++ [])).sent = [] ∧
    (processCommand envNull
        { baseState with srpUser := some (mkSRPClient [97] [98] 3) } 0x60
        (u16be 1 ++ [1] ++ u16be 0 ++ [])).err = none :=
  have h := C5_srp_reject_exactly_and_abort envNull
    { baseState with srpUser := some (mkSRPClient [97] [98] 3) }
    (mkSRPClient [97] [98] 3) [1] [] rfl (by decide) (by decide)
  ⟨h.1.mpr (Or.inl (by decide)), (h.2 (Or.inl (by decide))).1,
   (h.2 (Or.inl (by decide))).2.1⟩

set_option maxRecDepth 100000 in
/-- C4 counterexample: at hash `testHash`, username `"a"`, password `"b"`,
salt `[1]`, private exponent `a = 3` and server value `B = 5` — all
hypotheses of the claim satisfied — `process_challenge` does **not** return
the claim's all-minimal-conversions proof: `_calculate_k` hashes `g`
zero-padded to 256 bytes, not minimally. -/
theorem C4_client_proof_counterexample :
    5 % srpN ≠ 0 ∧
    calculateU testHash (powMod srpG 3 srpN) 5 ≠ 0 ∧
    lowerBytes [97] = [97] ∧
    (processChallenge testHash (mkSRPClient [97] [98] 3) [1] [5]).2.toOption ≠
      some (specClientProofM testHash [97] [98] [1] 3 5) := by
  exact ⟨by decide, by decide, by decide, by decide⟩

set_option maxRecDepth 100000 in
/-- C4 amended: for every hash `H`, already-lowercase username, salt, private
exponent `a` and accepted server value `B`, `process_challenge` returns
exactly the reference client proof with minimal-length conversions except
that `g` inside `k = H(N ‖ g)` is padded to the length of `N`. -/
theorem C4_amended_client_proof (H : List ℕ → List ℕ)
    (username password salt bytesB : List ℕ) (a : ℕ)
    (hlow : lowerBytes username = username)
    (hB : ¬fromBytesBE bytesB % srpN = 0)
    (hu : ¬calculateU H (powMod srpG a srpN) (fromBytesBE bytesB) = 0) :
    (processChallenge H (mkSRPClient username password a) salt bytesB).2 =
      .ok (specClientProofMPadded H username password salt a
        (fromBytesBE bytesB)) := by
  have hNpad : toBytesPad srpN nBytesLen = toMinBytes srpN := by decide
  have hu' : ¬calculateU H (mkSRPClient username password a).A
      (fromBytesBE bytesB) = 0 := hu
  have hbase : ∀ Bn k v : ℕ,
      (((Bn : ℤ) - ((k * v % srpN : ℕ) : ℤ)) % (srpN : ℤ)).toNat =
      (((Bn : ℤ) - (k : ℤ) * (v : ℤ)) % (srpN : ℤ)).toNat := by
    intro Bn k v
    congr 1
    conv_lhs => rw [Int.sub_emod]
    conv_rhs => rw [Int.sub_emod]
    congr 2
    push_cast
    rw [Int.emod_emod_of_dvd _ (dvd_refl _)]
  simp only [processChallenge]
  rw [if_neg hB, if_neg hu']
  simp only [specClientProofMPadded, calculateM, calculateK, calculateX,
    calculateU, calculateHAMK, mkSRPClient, Except.ok.injEq]
  simp only [hlow, hNpad, hbase]

set_option maxRecDepth 100000 in
/-- Witness for the amended C4 at the counterexample's concrete inputs. -/
theorem C4_amended_client_proof_witness :
    (processChallenge testHash (mkSRPClient [97] [98] 3) [1] [5]).2 =
      .ok (specClientProofMPadded testHash [97] [98] [1] 3 5) :=
  C4_amended_client_proof testHash [97] [98] [1] [5] 3 (by decide) (by decide)
    (by decide)

end Miney
